import Mathlib

/-!
Shallow embedding of the form-builder in `src/src/App.tsx`.

The program keeps four pieces of React state: a list of `Field` records,
a draft label, a draft type tag and a status message.  Event handlers
(`addField`, `updateField`, `updateLabel`, `removeField`, `saveForm`,
`updateType`) are pure state transformers here; the `as FieldType` casts
in the source are unchecked, so type tags are modelled as raw strings and
the registry lookup `fieldTypes[tag]` is partial (`Option`).  A lookup on
an unregistered tag would throw a `TypeError` in JavaScript, which we
model by the transformer returning `none`.
-/

namespace FormBuilder

/-- One field record (`interface Field` in the source). -/
structure Field where
  id : Int
  label : String
  type : String
  value : String
  error : Option String
deriving DecidableEq

/-! ### JavaScript `Number` conversion, restricted to NaN-ness

`fieldTypes.number.validate` tests `isNaN(Number(value))`.  Whether
`Number(s)` is NaN is purely syntactic: after stripping JS whitespace the
string must be empty (then `Number` gives `0`) or match the ECMAScript
`StrNumericLiteral` grammar (signed decimal with optional fraction and
exponent, `Infinity`, or an unsigned `0x`/`0o`/`0b` literal). -/

/-- JS whitespace and line terminators recognised by `Number` conversion. -/
def jsWhitespace (c : Char) : Bool :=
  c = ' ' || c = '\t' || c = '\n' || c = '\x0d' ||
  c = '\x0b' || c = '\x0c' || c = '\u00A0' || c = '\uFEFF' ||
  c = '\u2028' || c = '\u2029'

/-- Strip JS whitespace from both ends of a character list. -/
def trimChars (cs : List Char) : List Char :=
  ((cs.dropWhile jsWhitespace).reverse.dropWhile jsWhitespace).reverse

/-- `String.prototype.trim`, as a character list. -/
def jsTrim (s : String) : List Char :=
  trimChars s.toList

/-- Decimal digit. -/
def isDec (c : Char) : Bool := '0' ≤ c && c ≤ '9'

/-- Hexadecimal digit. -/
def isHex (c : Char) : Bool :=
  isDec c || ('a' ≤ c && c ≤ 'f') || ('A' ≤ c && c ≤ 'F')

/-- Octal digit. -/
def isOct (c : Char) : Bool := '0' ≤ c && c ≤ '7'

/-- Binary digit. -/
def isBin (c : Char) : Bool := c = '0' || c = '1'

/-- `cs` is a valid optional `ExponentPart` and nothing follows it. -/
def expTail : List Char → Bool
  | [] => true
  | c :: rest =>
    (c = 'e' || c = 'E') &&
    (let rest2 := match rest with
      | s :: r => if s = '+' || s = '-' then r else s :: r
      | [] => []
     let p := rest2.span isDec
     !p.1.isEmpty && p.2.isEmpty)

/-- `StrUnsignedDecimalLiteral`: `Infinity`, or digits with optional
fraction and exponent. -/
def unsignedDec (cs : List Char) : Bool :=
  if cs = "Infinity".toList then true
  else
    let p := cs.span isDec
    match p.2 with
    | '.' :: rest2 =>
      let q := rest2.span isDec
      (!p.1.isEmpty || !q.1.isEmpty) && expTail q.2
    | _ => !p.1.isEmpty && expTail p.2

/-- `NonDecimalIntegerLiteral`: `0x…`, `0o…`, `0b…` (no sign allowed). -/
def nonDecLit : List Char → Bool
  | '0' :: b :: rest =>
    ((b = 'x' || b = 'X') && !rest.isEmpty && rest.all isHex) ||
    ((b = 'o' || b = 'O') && !rest.isEmpty && rest.all isOct) ||
    ((b = 'b' || b = 'B') && !rest.isEmpty && rest.all isBin)
  | _ => false

/-- `StrNumericLiteral`: a non-decimal literal, or an optionally signed
decimal literal. -/
def strNumeric (cs : List Char) : Bool :=
  nonDecLit cs ||
  (match cs with
   | c :: rest => if c = '+' || c = '-' then unsignedDec rest else unsignedDec (c :: rest)
   | [] => unsignedDec [])

/-- `isNaN(Number(s))`: the trimmed string is non-empty and fails the
numeric-literal grammar. -/
def jsNumberIsNaN (s : String) : Bool :=
  let t := jsTrim s
  !t.isEmpty && !strNumeric t

/-! ### Field type registry (`fieldTypes`) -/

/-- Message `"Обязательное поле"`. -/
def requiredMsg : String := "Обязательное поле"

/-- Message `"Значение должно быть числом"`. -/
def numberMsg : String := "Значение должно быть числом"

/-- `fieldTypes.text.validate`. -/
def validateText (v : String) : Option String :=
  if v.length = 0 then some requiredMsg else none

/-- `fieldTypes.number.validate`: `!value.length` → required;
`value && isNaN(Number(value))` → numeric mismatch; else null. -/
def validateNumber (v : String) : Option String :=
  if v.length = 0 then some requiredMsg
  else if !v.isEmpty && jsNumberIsNaN v then some numberMsg
  else none

/-- `fieldTypes.select.validate`. -/
def validateSelect (v : String) : Option String :=
  if v.length = 0 then some requiredMsg else none

/-- The three registered type tags, in registry order. -/
def registeredTags : List String := ["text", "number", "select"]

/-- `fieldTypes[tag].validate`: partial lookup — the source's
`Record<FieldType, FieldConfig>` has exactly three keys, and the unchecked
`as FieldType` casts can produce tags outside them. -/
def validateFor (tag : String) : Option (String → Option String) :=
  if tag = "text" then some validateText
  else if tag = "number" then some validateNumber
  else if tag = "select" then some validateSelect
  else none

/-- `fieldTypes[tag].validate(v)`, as one partial application. -/
def validateTag (tag : String) (v : String) : Option (Option String) :=
  match validateFor tag with
  | some val => some (val v)
  | none => none

/-! ### Collection operations -/

/-- The `key` argument of `updateField`
(`keyof Omit<Field, "id" | "type">`). -/
inductive UpdKey
  | label
  | value
  | error
deriving DecidableEq

/-- The per-record action of `updateField` on the matched record:
`{ ...field, [key]: value, ...(key === "value" ? { error: … } : {}) }`.
A value update on an unregistered tag throws (modelled as `none`). -/
def updOne (f : Field) (key : UpdKey) (v : String) : Option Field :=
  match key with
  | .label => some { f with label := v }
  | .error => some { f with error := some v }
  | .value =>
    match validateFor f.type with
    | some val => some { f with value := v, error := val v }
    | none => none

/-- `updateField(id, key, value)` over the field list (`prev.map …`). -/
def updateField (id : Int) (key : UpdKey) (v : String) : List Field → Option (List Field)
  | [] => some []
  | f :: rest =>
    match (if f.id = id then updOne f key v else some f), updateField id key v rest with
    | some f', some rest' => some (f' :: rest')
    | _, _ => none

/-- `updateType(e, id)`: sets the matched record's `type` to the selected
option value and resets `value` to `""` (the record's `error` is spread
through unchanged). -/
def updateType (fields : List Field) (id : Int) (t : String) : List Field :=
  fields.map fun f => if f.id = id then { f with type := t, value := "" } else f

/-- `removeField(id)`: `prev.filter((field) => field.id !== id)`. -/
def removeField (fields : List Field) (id : Int) : List Field :=
  fields.filter fun f => f.id ≠ id

/-- JS truthiness of a `string | null` (`if (err) …`). -/
def truthyOpt : Option String → Bool
  | none => false
  | some s => !s.isEmpty

/-- The `fields.map` loop of `saveForm`, also accumulating `hasError`;
a lookup on an unregistered tag throws (modelled as `none`). -/
def saveForm : List Field → Option (List Field × Bool)
  | [] => some ([], false)
  | f :: rest =>
    match validateFor f.type with
    | none => none
    | some val =>
      match saveForm rest with
      | none => none
      | some (rest', hasErr) =>
        some ({ f with error := val f.value } :: rest', truthyOpt (val f.value) || hasErr)

/-! ### Whole-application state and events -/

/-- `"Форма заполнена некорректно"`. -/
def msgInvalid : String := "Форма заполнена некорректно"

/-- `"Форма заполнена успешно!"`. -/
def msgSuccess : String := "Форма заполнена успешно!"

/-- The four `useState` cells of `App`. -/
structure AppState where
  fields : List Field
  newFieldLabel : String
  newFieldType : String
  message : String
deriving DecidableEq

/-- Initial state: `[]`, `""`, `"text"`, `""`. -/
def initState : AppState :=
  { fields := [], newFieldLabel := "", newFieldType := "text", message := "" }

/-- `addField()`: aborts (after an alert) when the trimmed draft label is
empty; otherwise appends a record with `id = Date.now()` (the timestamp is
the `now` argument), the untrimmed draft label, the draft type, empty
value and null error, then clears only the draft label. -/
def addField (s : AppState) (now : Int) : AppState :=
  if (jsTrim s.newFieldLabel).isEmpty then s
  else
    { s with
      fields := s.fields ++
        [{ id := now, label := s.newFieldLabel, type := s.newFieldType,
           value := "", error := none }],
      newFieldLabel := "" }

/-- `addField()` raises the missing-label alert exactly when the trimmed
draft label is empty. -/
def addFieldAlerts (s : AppState) : Bool :=
  (jsTrim s.newFieldLabel).isEmpty

/-- UI events, each carrying the data the corresponding handler reads
from the DOM event (or, for `add`, the `Date.now()` sample; for `rename`,
the `prompt` result). -/
inductive Event
  | setDraftLabel (v : String)
  | setDraftType (t : String)
  | add (now : Int)
  | edit (id : Int) (v : String)
  | rename (id : Int) (resp : Option String)
  | changeType (id : Int) (t : String)
  | remove (id : Int)
  | save
deriving DecidableEq

/-- Which event payloads the rendered controls can actually deliver: the
builder's type selector lists only registered tags, while each field's
type selector has an extra empty `"Выберите"` option. -/
def evtOk (_s : AppState) (e : Event) : Bool :=
  match e with
  | .setDraftType t => t ∈ registeredTags
  | .changeType _ t => t = "" || t ∈ registeredTags
  | _ => true

/-- One event-handler invocation; `none` models a thrown `TypeError`
(registry lookup on an unregistered tag). -/
def step (s : AppState) (e : Event) : Option AppState :=
  match e with
  | .setDraftLabel v => some { s with newFieldLabel := v }
  | .setDraftType t => some { s with newFieldType := t }
  | .add now => some (addField s now)
  | .edit id v =>
    match updateField id .value v s.fields with
    | some fs => some { s with fields := fs }
    | none => none
  | .rename id resp =>
    match resp with
    | none => some s
    | some newLabel =>
      if newLabel.isEmpty then some s
      else
        match updateField id .label newLabel s.fields with
        | some fs => some { s with fields := fs }
        | none => none
  | .changeType id t => some { s with fields := updateType s.fields id t }
  | .remove id => some { s with fields := removeField s.fields id }
  | .save =>
    match saveForm s.fields with
    | some (fs, hasErr) =>
      some { s with fields := fs,
                    message := if hasErr then msgInvalid else msgSuccess }
    | none => none

/-- States reachable from the initial render by crash-free handler runs
on deliverable events. -/
inductive Reach : AppState → Prop
  | init : Reach initState
  | next {s : AppState} {e : Event} {s' : AppState} :
      Reach s → evtOk s e = true → step s e = some s' → Reach s'

/-! ### Helper lemmas about the registry and validators -/

theorem validateFor_isSome_iff (t : String) :
    (validateFor t).isSome = true ↔ t ∈ registeredTags := by
  unfold validateFor registeredTags
  split_ifs with h1 h2 h3 <;> simp_all

theorem validateFor_of_mem {t : String} (h : t ∈ registeredTags) :
    ∃ val, validateFor t = some val := by
  have hs : (validateFor t).isSome = true := (validateFor_isSome_iff t).mpr h
  exact Option.isSome_iff_exists.mp hs

theorem validateText_ne_some_empty (v : String) : validateText v ≠ some "" := by
  unfold validateText
  split_ifs <;> simp [requiredMsg]

theorem validateNumber_ne_some_empty (v : String) : validateNumber v ≠ some "" := by
  unfold validateNumber
  split_ifs <;> simp [requiredMsg, numberMsg]

theorem validateSelect_ne_some_empty (v : String) : validateSelect v ≠ some "" := by
  unfold validateSelect
  split_ifs <;> simp [requiredMsg]

theorem validateFor_ne_some_empty {t : String} {val : String → Option String}
    (h : validateFor t = some val) (v : String) : val v ≠ some "" := by
  unfold validateFor at h
  split_ifs at h <;> cases h
  · exact validateText_ne_some_empty v
  · exact validateNumber_ne_some_empty v
  · exact validateSelect_ne_some_empty v

theorem truthyOpt_validator {t : String} {val : String → Option String}
    (h : validateFor t = some val) (v : String) :
    truthyOpt (val v) = (val v).isSome := by
  cases hv : val v with
  | none => rfl
  | some s =>
    have hne : s ≠ "" := by
      intro hs
      exact validateFor_ne_some_empty h v (hs ▸ hv)
    have hfalse : s.isEmpty = false :=
      Bool.eq_false_iff.mpr (fun h2 => hne ((String.isEmpty_iff s).mp h2))
    simp [truthyOpt, hfalse]

/-! ### Helper lemmas about updateField -/

theorem updOne_id_type {f f' : Field} {key : UpdKey} {v : String}
    (h : updOne f key v = some f') : f'.id = f.id ∧ f'.type = f.type := by
  cases key with
  | label => cases h; exact ⟨rfl, rfl⟩
  | error => cases h; exact ⟨rfl, rfl⟩
  | value =>
    unfold updOne at h
    cases hv : validateFor f.type with
    | none => rw [hv] at h; cases h
    | some val => rw [hv] at h; cases h; exact ⟨rfl, rfl⟩

theorem updateField_frame {id : Int} {key : UpdKey} {v : String}
    {fields fs : List Field} (h : updateField id key v fields = some fs) :
    fs.map (fun f => f.id) = fields.map (fun f => f.id) ∧
    fs.map (fun f => f.type) = fields.map (fun f => f.type) := by
  induction fields generalizing fs with
  | nil => cases h; exact ⟨rfl, rfl⟩
  | cons f rest ih =>
    unfold updateField at h
    cases hone : (if f.id = id then updOne f key v else some f) with
    | none => rw [hone] at h; cases h
    | some f' =>
      cases hrest : updateField id key v rest with
      | none => rw [hone, hrest] at h; cases h
      | some rest' =>
        rw [hone, hrest] at h
        cases h
        have hft : f'.id = f.id ∧ f'.type = f.type := by
          by_cases hid : f.id = id
          · rw [if_pos hid] at hone; exact updOne_id_type hone
          · rw [if_neg hid] at hone; cases hone; exact ⟨rfl, rfl⟩
        obtain ⟨ih1, ih2⟩ := ih hrest
        simp [List.map_cons, hft.1, hft.2, ih1, ih2]

theorem updateField_noop {id : Int} {key : UpdKey} {v : String} {fields : List Field}
    (h : ∀ f ∈ fields, f.id ≠ id) :
    updateField id key v fields = some fields := by
  induction fields with
  | nil => rfl
  | cons f rest ih =>
    have hf : f.id ≠ id := h f (List.mem_cons_self f rest)
    have hrest := ih fun g hg => h g (List.mem_cons_of_mem f hg)
    unfold updateField
    rw [if_neg hf, hrest]

theorem updateField_label {id : Int} {v : String} (fields : List Field) :
    updateField id .label v fields =
      some (fields.map fun f => if f.id = id then { f with label := v } else f) := by
  induction fields with
  | nil => rfl
  | cons f rest ih =>
    unfold updateField
    rw [ih]
    by_cases hid : f.id = id
    · simp [hid, updOne]
    · simp [hid]

theorem updateField_value_some {id : Int} {v : String} {fields : List Field}
    (h : ∀ f ∈ fields, f.id = id → (validateFor f.type).isSome = true) :
    ∃ fs, updateField id .value v fields = some fs := by
  induction fields with
  | nil => exact ⟨[], rfl⟩
  | cons f rest ih =>
    obtain ⟨fs', hfs'⟩ := ih fun g hg hgid => h g (List.mem_cons_of_mem f hg) hgid
    by_cases hid : f.id = id
    · obtain ⟨val, hval⟩ :=
        Option.isSome_iff_exists.mp (h f (List.mem_cons_self f rest) hid)
      refine ⟨{ f with value := v, error := val v } :: fs', ?_⟩
      unfold updateField
      rw [if_pos hid, hfs']
      unfold updOne
      rw [hval]
    · refine ⟨f :: fs', ?_⟩
      unfold updateField
      rw [if_neg hid, hfs']

theorem updateField_sound {id : Int} {key : UpdKey} {v : String}
    {fields fs : List Field} (h : updateField id key v fields = some fs) :
    fs.length = fields.length ∧
    ∀ (i : Nat) (f : Field), fields[i]? = some f →
      (f.id = id → ∃ f', updOne f key v = some f' ∧ fs[i]? = some f') ∧
      (f.id ≠ id → fs[i]? = some f) := by
  induction fields generalizing fs with
  | nil =>
    cases h
    exact ⟨rfl, by intro i f hf; simp at hf⟩
  | cons f0 rest ih =>
    unfold updateField at h
    cases hone : (if f0.id = id then updOne f0 key v else some f0) with
    | none => rw [hone] at h; cases h
    | some f0' =>
      cases hrest : updateField id key v rest with
      | none => rw [hone, hrest] at h; cases h
      | some rest' =>
        rw [hone, hrest] at h
        cases h
        obtain ⟨ihlen, ihpt⟩ := ih hrest
        refine ⟨by simp [ihlen], ?_⟩
        intro i f hf
        cases i with
        | zero =>
          simp only [List.getElem?_cons_zero, Option.some_inj] at hf
          cases hf
          constructor
          · intro hid
            rw [if_pos hid] at hone
            exact ⟨f0', hone, by simp⟩
          · intro hid
            rw [if_neg hid] at hone
            cases hone
            simp
        | succ n =>
          simp only [List.getElem?_cons_succ] at hf ⊢
          exact ihpt n f hf

/-! ### Helper lemmas about saveForm -/

theorem saveForm_sound {fields fs : List Field} {b : Bool}
    (h : saveForm fields = some (fs, b)) :
    fs.length = fields.length ∧
    (∀ (i : Nat) (f : Field), fields[i]? = some f →
      ∃ e, validateTag f.type f.value = some e ∧ fs[i]? = some { f with error := e }) ∧
    b = fs.any (fun f => truthyOpt f.error) ∧
    fs.map (fun f => f.id) = fields.map (fun f => f.id) ∧
    fs.map (fun f => f.type) = fields.map (fun f => f.type) := by
  induction fields generalizing fs b with
  | nil =>
    cases h
    exact ⟨rfl, by intro i f hf; simp at hf, rfl, rfl, rfl⟩
  | cons f0 rest ih =>
    unfold saveForm at h
    cases hval : validateFor f0.type with
    | none => rw [hval] at h; cases h
    | some val =>
      rw [hval] at h
      cases hsave : saveForm rest with
      | none => rw [hsave] at h; cases h
      | some p =>
        obtain ⟨rest', hErr⟩ := p
        rw [hsave] at h
        cases h
        obtain ⟨ihlen, ihpt, ihany, ihids, ihtypes⟩ := ih hsave
        refine ⟨by simp [ihlen], ?_, ?_, ?_, ?_⟩
        · intro i f hf
          cases i with
          | zero =>
            simp only [List.getElem?_cons_zero, Option.some_inj] at hf
            cases hf
            refine ⟨val f0.value, ?_, by simp⟩
            unfold validateTag
            rw [hval]
          | succ n =>
            simp only [List.getElem?_cons_succ] at hf ⊢
            exact ihpt n f hf
        · simp [List.any_cons, ihany]
        · simp [List.map_cons, ihids]
        · simp [List.map_cons, ihtypes]

theorem saveForm_total {fields : List Field}
    (h : ∀ f ∈ fields, (validateFor f.type).isSome = true) :
    ∃ fs b, saveForm fields = some (fs, b) := by
  induction fields with
  | nil => exact ⟨[], false, rfl⟩
  | cons f0 rest ih =>
    obtain ⟨fs', b', hfs'⟩ := ih fun g hg => h g (List.mem_cons_of_mem f0 hg)
    obtain ⟨val, hval⟩ :=
      Option.isSome_iff_exists.mp (h f0 (List.mem_cons_self f0 rest))
    refine ⟨{ f0 with error := val f0.value } :: fs',
      truthyOpt (val f0.value) || b', ?_⟩
    unfold saveForm
    rw [hval, hfs']

theorem saveForm_hasError_iff {fields fs : List Field} {b : Bool}
    (h : saveForm fields = some (fs, b)) :
    b = true ↔ ∃ f ∈ fs, f.error ≠ none := by
  induction fields generalizing fs b with
  | nil =>
    cases h
    simp
  | cons f0 rest ih =>
    unfold saveForm at h
    cases hval : validateFor f0.type with
    | none => rw [hval] at h; cases h
    | some val =>
      rw [hval] at h
      cases hsave : saveForm rest with
      | none => rw [hsave] at h; cases h
      | some p =>
        obtain ⟨rest', hErr⟩ := p
        rw [hsave] at h
        cases h
        have htr : truthyOpt (val f0.value) = (val f0.value).isSome :=
          truthyOpt_validator hval f0.value
        have ihh := ih hsave
        rw [Bool.or_eq_true, htr, Option.isSome_iff_ne_none, ihh]
        simp [List.mem_cons]

/-! ### Helper lemmas about removeField and updateType -/

theorem mem_removeField {fields : List Field} {id : Int} {f : Field} :
    f ∈ removeField fields id ↔ f ∈ fields ∧ f.id ≠ id := by
  unfold removeField
  simp [List.mem_filter]

theorem removeField_sublist (fields : List Field) (id : Int) :
    (removeField fields id).Sublist fields :=
  List.filter_sublist fields

theorem removeField_noop {fields : List Field} {id : Int}
    (h : ∀ f ∈ fields, f.id ≠ id) :
    removeField fields id = fields := by
  unfold removeField
  apply List.filter_eq_self.mpr
  intro a ha
  simp [h a ha]

theorem removeField_idem (fields : List Field) (id : Int) :
    removeField (removeField fields id) id = removeField fields id :=
  removeField_noop fun f hf => (mem_removeField.mp hf).2

theorem updateType_ids (fields : List Field) (id : Int) (t : String) :
    (updateType fields id t).map (fun f => f.id) = fields.map (fun f => f.id) := by
  induction fields with
  | nil => rfl
  | cons f rest ih =>
    unfold updateType at ih ⊢
    simp only [List.map_cons, ih]
    congr 1
    by_cases hid : f.id = id <;> simp [hid]

theorem string_length_zero_iff (v : String) : v.length = 0 ↔ v = "" := by
  constructor
  · intro h
    cases v with
    | mk data =>
      have hd : data = [] := List.length_eq_zero.mp h
      rw [hd]
  · intro h
    rw [h]
    rfl

/-! ### Claim theorems -/

/-- Claim C7: the number validator returns the required-field error iff the
value is empty; otherwise it returns the numeric-mismatch error iff the
value is not parseable as a JS number (`isNaN(Number(v))`), and null
otherwise; `"abc"` yields the mismatch error and `"42"` yields null. -/
theorem claim_C7 (v : String) :
    (validateNumber v = some requiredMsg ↔ v = "") ∧
    (validateNumber v = some numberMsg ↔ (v ≠ "" ∧ jsNumberIsNaN v = true)) ∧
    (validateNumber v = none ↔ (v ≠ "" ∧ jsNumberIsNaN v = false)) ∧
    validateNumber "abc" = some numberMsg ∧
    validateNumber "42" = none := by
  have habc : validateNumber "abc" = some numberMsg := by decide
  have h42 : validateNumber "42" = none := by decide
  by_cases hv : v = ""
  · subst hv
    refine ⟨by decide, ?_, ?_, habc, h42⟩
    · constructor
      · intro h
        exact absurd h (by decide)
      · rintro ⟨h1, -⟩
        exact absurd rfl h1
    · constructor
      · intro h
        exact absurd h (by decide)
      · rintro ⟨h1, -⟩
        exact absurd rfl h1
  · have hlen : ¬ v.length = 0 := fun h0 => hv ((string_length_zero_iff v).mp h0)
    have hemp : v.isEmpty = false :=
      Bool.eq_false_iff.mpr (fun h2 => hv ((String.isEmpty_iff v).mp h2))
    have hred : validateNumber v = if jsNumberIsNaN v then some numberMsg else none := by
      unfold validateNumber
      rw [if_neg hlen]
      simp [hemp]
    by_cases hnan : jsNumberIsNaN v = true
    · have heq : validateNumber v = some numberMsg := by rw [hred, if_pos hnan]
      refine ⟨?_, ?_, ?_, habc, h42⟩
      · refine iff_of_false ?_ hv
        intro hc
        rw [heq] at hc
        exact absurd hc (by decide)
      · exact iff_of_true heq ⟨hv, hnan⟩
      · refine iff_of_false ?_ ?_
        · intro hc
          rw [heq] at hc
          exact absurd hc (by decide)
        · rintro ⟨-, h2⟩
          rw [hnan] at h2
          exact Bool.noConfusion h2
    · have hnanf : jsNumberIsNaN v = false := Bool.eq_false_iff.mpr hnan
      have heq : validateNumber v = none := by rw [hred, if_neg hnan]
      refine ⟨?_, ?_, ?_, habc, h42⟩
      · refine iff_of_false ?_ hv
        intro hc
        rw [heq] at hc
        exact absurd hc (by decide)
      · refine iff_of_false ?_ ?_
        · intro hc
          rw [heq] at hc
          exact absurd hc (by decide)
        · rintro ⟨-, h2⟩
          rw [hnanf] at h2
          exact Bool.noConfusion h2
      · exact iff_of_true heq ⟨hv, hnanf⟩

/-- Witness for C7: the number validator at the concrete inputs `"abc"`
and `"42"`. -/
theorem claim_C7_witness :
    validateNumber "abc" = some numberMsg ∧ validateNumber "42" = none :=
  ⟨(claim_C7 "abc").2.2.2.1, (claim_C7 "42").2.2.2.2⟩

/-- Claim C4: for a draft label that is empty or whitespace-only,
`addField` triggers the missing-label alert, aborts, and leaves the whole
state (in particular the collection and its size) unchanged. -/
theorem claim_C4 (s : AppState) (now : Int)
    (h : ∀ c ∈ s.newFieldLabel.toList, jsWhitespace c = true) :
    addField s now = s ∧
    (addField s now).fields.length = s.fields.length ∧
    addFieldAlerts s = true := by
  have h1 : s.newFieldLabel.toList.dropWhile jsWhitespace = [] :=
    List.dropWhile_eq_nil_iff.mpr h
  have htrim : jsTrim s.newFieldLabel = [] := by
    unfold jsTrim trimChars
    rw [h1]
    rfl
  have hemp : (jsTrim s.newFieldLabel).isEmpty = true := by rw [htrim]; rfl
  have hs : addField s now = s := by
    unfold addField
    simp [hemp]
  exact ⟨hs, by rw [hs], hemp⟩

/-- Witness for C4: a whitespace-only draft label (`" "`) makes `addField`
a no-op that raises the alert. -/
theorem claim_C4_witness :
    addField { fields := [], newFieldLabel := " ", newFieldType := "text",
               message := "" } 5 =
      { fields := [], newFieldLabel := " ", newFieldType := "text",
        message := "" } ∧
    (addField { fields := [], newFieldLabel := " ", newFieldType := "text",
                message := "" } 5).fields.length =
      ({ fields := [], newFieldLabel := " ", newFieldType := "text",
         message := "" } : AppState).fields.length ∧
    addFieldAlerts { fields := [], newFieldLabel := " ", newFieldType := "text",
                     message := "" } = true :=
  claim_C4 { fields := [], newFieldLabel := " ", newFieldType := "text",
             message := "" } 5 (by decide)

/-- Claim C5: for a draft label that is non-empty after trimming,
`addField` appends exactly one record at the end with empty value, null
error and the draft type, leaves the pre-existing records unchanged,
clears only the draft label, and retains the draft type. -/
theorem claim_C5 (s : AppState) (now : Int)
    (h : jsTrim s.newFieldLabel ≠ []) :
    addField s now =
      { s with
        fields := s.fields ++
          [{ id := now, label := s.newFieldLabel, type := s.newFieldType,
             value := "", error := none }],
        newFieldLabel := "" } ∧
    (addField s now).fields.length = s.fields.length + 1 ∧
    (addField s now).fields.take s.fields.length = s.fields ∧
    (addField s now).fields[s.fields.length]? =
      some { id := now, label := s.newFieldLabel, type := s.newFieldType,
             value := "", error := none } ∧
    (addField s now).newFieldLabel = "" ∧
    (addField s now).newFieldType = s.newFieldType ∧
    (addField s now).message = s.message := by
  have hemp : (jsTrim s.newFieldLabel).isEmpty = false := by
    cases htr : jsTrim s.newFieldLabel with
    | nil => exact absurd htr h
    | cons c cs => rfl
  have h1 : addField s now =
      { s with
        fields := s.fields ++
          [{ id := now, label := s.newFieldLabel, type := s.newFieldType,
             value := "", error := none }],
        newFieldLabel := "" } := by
    unfold addField
    simp [hemp]
  refine ⟨h1, ?_, ?_, ?_, ?_, ?_, ?_⟩ <;> rw [h1] <;>
    first
    | exact List.take_left _ _
    | simp

/-- Witness for C5: adding with draft label `"Имя"` and draft type
`"number"` appends the expected record and keeps the draft type. -/
theorem claim_C5_witness :
    addField { fields := [], newFieldLabel := "Имя", newFieldType := "number",
               message := "" } 7 =
      { fields := [{ id := 7, label := "Имя", type := "number", value := "",
                     error := none }],
        newFieldLabel := "", newFieldType := "number", message := "" } ∧
    (addField { fields := [], newFieldLabel := "Имя", newFieldType := "number",
                message := "" } 7).fields.length = 1 := by
  have h := claim_C5 { fields := [], newFieldLabel := "Имя",
                       newFieldType := "number", message := "" } 7 (by decide)
  exact ⟨h.1, h.2.1⟩

/-! ### Claim C1: changeType and the error field -/

/-- Penultimate state of the C1 run: a number field has been edited to the
invalid value `"x"`, so its error is the numeric-mismatch message. -/
def c1Before : AppState :=
  { fields := [{ id := 1, label := "Возраст", type := "number", value := "x",
                 error := some numberMsg }],
    newFieldLabel := "", newFieldType := "number", message := "" }

/-- State of the C1 run after `changeType(1, "text")`: the value is reset
but the stale error message survives. -/
def c1After : AppState :=
  { fields := [{ id := 1, label := "Возраст", type := "text", value := "",
                 error := some numberMsg }],
    newFieldLabel := "", newFieldType := "number", message := "" }

/-- Counterexample to claim C1 as stated: `c1Before` is reachable (add a
number field, edit its value to `"x"`), and changing the field's type to
`"text"` resets the value but leaves `error = some numberMsg ≠ none`. -/
theorem claim_C1_counterexample :
    Reach c1Before ∧
    evtOk c1Before (Event.changeType 1 "text") = true ∧
    step c1Before (Event.changeType 1 "text") = some c1After ∧
    c1After.fields.map (fun f => f.value) = [""] ∧
    c1After.fields.map (fun f => f.error) = [some numberMsg] := by
  refine ⟨?_, by decide, by decide, by decide, by decide⟩
  have h1 : Reach { fields := [], newFieldLabel := "", newFieldType := "number",
                    message := "" } :=
    @Reach.next initState (Event.setDraftType "number") _ Reach.init
      (by decide) (by decide)
  have h2 : Reach { fields := [], newFieldLabel := "Возраст",
                    newFieldType := "number", message := "" } :=
    @Reach.next _ (Event.setDraftLabel "Возраст") _ h1 (by decide) (by decide)
  have h3 : Reach { fields := [{ id := 1, label := "Возраст", type := "number",
                                 value := "", error := none }],
                    newFieldLabel := "", newFieldType := "number",
                    message := "" } :=
    @Reach.next _ (Event.add 1) _ h2 (by decide) (by decide)
  exact @Reach.next _ (Event.edit 1 "x") _ h3 (by decide) (by decide)

/-- Claim C1 (amended): `changeType` replaces the matched record's type and
resets its value to `""`, but leaves its error unchanged (it is not reset
to null); id and label are also kept, and all other records are
untouched. -/
theorem claim_C1 (fields : List Field) (id : Int) (t : String) :
    (updateType fields id t).length = fields.length ∧
    ∀ (i : Nat) (f : Field), fields[i]? = some f →
      (f.id = id → (updateType fields id t)[i]? =
        some { f with type := t, value := "" }) ∧
      (f.id ≠ id → (updateType fields id t)[i]? = some f) := by
  unfold updateType
  refine ⟨List.length_map _ _, ?_⟩
  intro i f hf
  constructor <;> intro hid <;> rw [List.getElem?_map, hf] <;> simp [hid]

/-- Witness for C1 (amended): changing a concrete number field with a
pending numeric error to `"text"` keeps the error and clears the value. -/
theorem claim_C1_witness :
    (updateType [{ id := 3, label := "Возраст", type := "number", value := "x",
                   error := some numberMsg }] 3 "text")[0]? =
      some { id := 3, label := "Возраст", type := "text", value := "",
             error := some numberMsg } := by
  have h := claim_C1 [{ id := 3, label := "Возраст", type := "number",
                        value := "x", error := some numberMsg }] 3 "text"
  exact (h.2 0 { id := 3, label := "Возраст", type := "number", value := "x",
                 error := some numberMsg } (by decide)).1 (by decide)

/-! ### Claim C6: updateField -/

/-- Claim C6: `update(id, attribute, v)` with an absent id is a silent
no-op; with `attribute = label` it sets only the matched record's label,
leaving its error untouched; with `attribute = value` (and the matched
record's type registered, so the validator lookup is defined) it sets the
value and recomputes the error with the record's current type's validator;
all other records are unchanged. -/
theorem claim_C6 (fields : List Field) (id : Int) (v : String) :
    ((∀ f ∈ fields, f.id ≠ id) →
      ∀ key, updateField id key v fields = some fields) ∧
    (updateField id .label v fields =
      some (fields.map fun f => if f.id = id then { f with label := v } else f)) ∧
    ((∀ f ∈ fields, f.id = id → f.type ∈ registeredTags) →
      ∃ fs, updateField id .value v fields = some fs ∧
        fs.length = fields.length ∧
        ∀ (i : Nat) (f : Field), fields[i]? = some f →
          (f.id = id → ∃ e, validateTag f.type v = some e ∧
            fs[i]? = some { f with value := v, error := e }) ∧
          (f.id ≠ id → fs[i]? = some f)) := by
  refine ⟨fun h key => updateField_noop h, updateField_label fields, ?_⟩
  intro h
  have h2 : ∀ f ∈ fields, f.id = id → (validateFor f.type).isSome = true :=
    fun f hf hid => (validateFor_isSome_iff f.type).mpr (h f hf hid)
  obtain ⟨fs, hfs⟩ := updateField_value_some h2
  obtain ⟨hlen, hpt⟩ := updateField_sound hfs
  refine ⟨fs, hfs, hlen, ?_⟩
  intro i f hf
  have hmem : f ∈ fields := by
    obtain ⟨hlt, he⟩ := List.getElem?_eq_some.mp hf
    exact he ▸ List.getElem_mem hlt
  refine ⟨?_, fun hid => (hpt i f hf).2 hid⟩
  intro hid
  obtain ⟨f', hupd, hget⟩ := (hpt i f hf).1 hid
  obtain ⟨val, hval⟩ := validateFor_of_mem (h f hmem hid)
  refine ⟨val v, ?_, ?_⟩
  · unfold validateTag
    rw [hval]
  · unfold updOne at hupd
    rw [hval] at hupd
    cases hupd
    exact hget

/-- Witness for C6: on a one-record list, updating an absent id is a
no-op, a label update rewrites only the label, and a value update on the
number record recomputes the error. -/
theorem claim_C6_witness :
    updateField 9 UpdKey.value "x"
        [{ id := 1, label := "Имя", type := "number", value := "",
           error := none }] =
      some [{ id := 1, label := "Имя", type := "number", value := "",
              error := none }] ∧
    updateField 1 UpdKey.label "Год"
        [{ id := 1, label := "Имя", type := "number", value := "",
           error := none }] =
      some [{ id := 1, label := "Год", type := "number", value := "",
              error := none }] ∧
    ∃ fs, updateField 1 UpdKey.value "abc"
        [{ id := 1, label := "Имя", type := "number", value := "",
           error := none }] = some fs ∧
      fs.length = 1 ∧
      ∀ (i : Nat) (f : Field),
        ([{ id := 1, label := "Имя", type := "number", value := "",
            error := none }] : List Field)[i]? = some f →
        (f.id = 1 → ∃ e, validateTag f.type "abc" = some e ∧
          fs[i]? = some { f with value := "abc", error := e }) ∧
        (f.id ≠ 1 → fs[i]? = some f) := by
  refine ⟨(claim_C6 [{ id := 1, label := "Имя", type := "number", value := "",
                       error := none }] 9 "x").1 (by decide) UpdKey.value,
    ?_, (claim_C6 [{ id := 1, label := "Имя", type := "number", value := "",
                     error := none }] 1 "abc").2.2 (by decide)⟩
  have h := (claim_C6 [{ id := 1, label := "Имя", type := "number", value := "",
                         error := none }] 1 "Год").2.1
  rw [h]
  decide

/-! ### Claim C9: removeField -/

/-- Claim C9: `remove(id)` deletes exactly the records with that id,
keeping all other records in order; it is a no-op when the id is absent;
and after a removal, `update` on the removed id is a silent no-op (it
returns successfully, never throwing) and a second `remove` changes
nothing. -/
theorem claim_C9 (fields : List Field) (id : Int) :
    (∀ f : Field, f ∈ removeField fields id ↔ (f ∈ fields ∧ f.id ≠ id)) ∧
    (removeField fields id).Sublist fields ∧
    ((∀ f ∈ fields, f.id ≠ id) → removeField fields id = fields) ∧
    (∀ (key : UpdKey) (v : String),
      updateField id key v (removeField fields id) =
        some (removeField fields id)) ∧
    removeField (removeField fields id) id = removeField fields id := by
  refine ⟨fun f => mem_removeField, removeField_sublist fields id,
    fun h => removeField_noop h, ?_, removeField_idem fields id⟩
  intro key v
  exact updateField_noop fun f hf => (mem_removeField.mp hf).2

/-- Witness for C9: removing id 1 from a two-record list, then updating or
removing id 1 again, changes nothing. -/
theorem claim_C9_witness :
    removeField [{ id := 2, label := "Б", type := "text", value := "",
                   error := none }] 1 =
      [{ id := 2, label := "Б", type := "text", value := "", error := none }] ∧
    updateField 1 UpdKey.value "x"
        (removeField [{ id := 1, label := "А", type := "text", value := "",
                        error := none },
                      { id := 2, label := "Б", type := "text", value := "",
                        error := none }] 1) =
      some (removeField [{ id := 1, label := "А", type := "text", value := "",
                           error := none },
                         { id := 2, label := "Б", type := "text", value := "",
                           error := none }] 1) ∧
    removeField
        (removeField [{ id := 1, label := "А", type := "text", value := "",
                        error := none },
                      { id := 2, label := "Б", type := "text", value := "",
                        error := none }] 1) 1 =
      removeField [{ id := 1, label := "А", type := "text", value := "",
                     error := none },
                   { id := 2, label := "Б", type := "text", value := "",
                     error := none }] 1 :=
  ⟨(claim_C9 [{ id := 2, label := "Б", type := "text", value := "",
                error := none }] 1).2.2.1 (by decide),
   (claim_C9 [{ id := 1, label := "А", type := "text", value := "",
                error := none },
              { id := 2, label := "Б", type := "text", value := "",
                error := none }] 1).2.2.2.1 UpdKey.value "x",
   (claim_C9 [{ id := 1, label := "А", type := "text", value := "",
                error := none },
              { id := 2, label := "Б", type := "text", value := "",
                error := none }] 1).2.2.2.2⟩

/-! ### Claim C2: save recomputes all errors and sets the message -/

/-- Claim C2: when every record's type is registered (so the validator
lookups are defined), `save()` recomputes each record's error as its
type's validator applied to its current value and sets the status message
to the invalid-form text exactly when some recomputed error is non-null,
and to the success text otherwise; the empty collection yields no
error. -/
theorem claim_C2 (s : AppState) (h : ∀ f ∈ s.fields, f.type ∈ registeredTags) :
    ∃ fs b, saveForm s.fields = some (fs, b) ∧
      (∀ (i : Nat) (f : Field), s.fields[i]? = some f →
        ∃ e, validateTag f.type f.value = some e ∧
          fs[i]? = some { f with error := e }) ∧
      step s Event.save =
        some { s with fields := fs,
                      message := if b then msgInvalid else msgSuccess } ∧
      ((b = true) ↔ ∃ f ∈ fs, f.error ≠ none) ∧
      (s.fields = [] → b = false) := by
  have h2 : ∀ f ∈ s.fields, (validateFor f.type).isSome = true :=
    fun f hf => (validateFor_isSome_iff f.type).mpr (h f hf)
  obtain ⟨fs, b, hsf⟩ := saveForm_total h2
  obtain ⟨-, hpt, -, -, -⟩ := saveForm_sound hsf
  refine ⟨fs, b, hsf, hpt, ?_, saveForm_hasError_iff hsf, ?_⟩
  · unfold step
    rw [hsf]
  · intro hnil
    rw [hnil] at hsf
    cases hsf
    rfl

/-- Witness for C2: saving a single empty text field stores the
required-field error on it and sets the invalid-form message. -/
theorem claim_C2_witness :
    step { fields := [{ id := 1, label := "Имя", type := "text", value := "",
                        error := none }],
           newFieldLabel := "", newFieldType := "text", message := "" }
        Event.save =
      some { fields := [{ id := 1, label := "Имя", type := "text", value := "",
                          error := some requiredMsg }],
             newFieldLabel := "", newFieldType := "text",
             message := msgInvalid } := by
  obtain ⟨fs, b, hsf, -, hstep, -, -⟩ :=
    claim_C2 { fields := [{ id := 1, label := "Имя", type := "text",
                            value := "", error := none }],
               newFieldLabel := "", newFieldType := "text", message := "" }
      (by decide)
  have hc : saveForm [{ id := 1, label := "Имя", type := "text", value := "",
                        error := none }] =
      some ([{ id := 1, label := "Имя", type := "text", value := "",
               error := some requiredMsg }], true) := by decide
  rw [hsf] at hc
  simp only [Option.some_inj, Prod.mk.injEq] at hc
  obtain ⟨h1, h2⟩ := hc
  subst h1
  subst h2
  simpa using hstep

/-- Claim C8: `save()` mutates only each record's error and the status
message: the collection keeps its length and order, every record keeps its
id, label, type and value, the draft inputs are untouched, and the whole
field list is replaced in a single state update. -/
theorem claim_C8 (s : AppState) (h : ∀ f ∈ s.fields, f.type ∈ registeredTags) :
    ∃ fs b, saveForm s.fields = some (fs, b) ∧
      fs.length = s.fields.length ∧
      (∀ (i : Nat) (f : Field), s.fields[i]? = some f →
        ∃ e, fs[i]? = some { f with error := e }) ∧
      fs.map (fun f => f.id) = s.fields.map (fun f => f.id) ∧
      fs.map (fun f => f.type) = s.fields.map (fun f => f.type) ∧
      step s Event.save =
        some { s with fields := fs,
                      message := if b then msgInvalid else msgSuccess } := by
  have h2 : ∀ f ∈ s.fields, (validateFor f.type).isSome = true :=
    fun f hf => (validateFor_isSome_iff f.type).mpr (h f hf)
  obtain ⟨fs, b, hsf⟩ := saveForm_total h2
  obtain ⟨hlen, hpt, -, hids, htypes⟩ := saveForm_sound hsf
  refine ⟨fs, b, hsf, hlen, ?_, hids, htypes, ?_⟩
  · intro i f hf
    obtain ⟨e, -, hget⟩ := hpt i f hf
    exact ⟨e, hget⟩
  · unfold step
    rw [hsf]

/-- Witness for C8: saving a valid number field (`"42"`) keeps its id,
label, type and value, clears its error, and sets the success message. -/
theorem claim_C8_witness :
    step { fields := [{ id := 4, label := "Год", type := "number",
                        value := "42", error := some numberMsg }],
           newFieldLabel := "черновик", newFieldType := "select",
           message := "" }
        Event.save =
      some { fields := [{ id := 4, label := "Год", type := "number",
                          value := "42", error := none }],
             newFieldLabel := "черновик", newFieldType := "select",
             message := msgSuccess } := by
  obtain ⟨fs, b, hsf, -, -, -, -, hstep⟩ :=
    claim_C8 { fields := [{ id := 4, label := "Год", type := "number",
                            value := "42", error := some numberMsg }],
               newFieldLabel := "черновик", newFieldType := "select",
               message := "" }
      (by decide)
  have hc : saveForm [{ id := 4, label := "Год", type := "number",
                        value := "42", error := some numberMsg }] =
      some ([{ id := 4, label := "Год", type := "number", value := "42",
               error := none }], false) := by decide
  rw [hsf] at hc
  simp only [Option.some_inj, Prod.mk.injEq] at hc
  obtain ⟨h1, h2⟩ := hc
  subst h1
  subst h2
  simpa using hstep

/-! ### Claim C3: reachable type tags -/

theorem types_of_map_eq {fs fields : List Field}
    (hmap : fs.map (fun f => f.type) = fields.map (fun f => f.type))
    (hall : ∀ f ∈ fields, f.type = "" ∨ f.type ∈ registeredTags) :
    ∀ f ∈ fs, f.type = "" ∨ f.type ∈ registeredTags := by
  intro g hg
  have h1 : g.type ∈ fs.map (fun f => f.type) := List.mem_map_of_mem _ hg
  rw [hmap] at h1
  obtain ⟨f, hf, hft⟩ := List.mem_map.mp h1
  rw [← hft]
  exact hall f hf

/-- Claim C3 (amended): in every reachable state the draft type is a
registered tag, and every record's type tag is either a registered tag or
the empty string — the empty string is possible because the per-field type
selector's `"Выберите"` option makes `updateType` store `""`, for which
the registry lookup is undefined. -/
theorem claim_C3 (s : AppState) (h : Reach s) :
    s.newFieldType ∈ registeredTags ∧
    ∀ f ∈ s.fields, f.type = "" ∨ f.type ∈ registeredTags := by
  induction h with
  | init =>
    refine ⟨by simp [initState, registeredTags], ?_⟩
    intro f hf
    simp [initState] at hf
  | @next s e s' hr hok hst ih =>
    obtain ⟨ihdraft, ihfields⟩ := ih
    cases e with
    | setDraftLabel v =>
      simp only [step] at hst
      cases hst
      exact ⟨ihdraft, ihfields⟩
    | setDraftType t =>
      simp only [step] at hst
      cases hst
      simp only [evtOk, decide_eq_true_eq] at hok
      exact ⟨hok, ihfields⟩
    | add now =>
      simp only [step] at hst
      cases hst
      unfold addField
      split_ifs with hemp
      · exact ⟨ihdraft, ihfields⟩
      · refine ⟨ihdraft, ?_⟩
        intro f hf
        simp only [List.mem_append, List.mem_singleton] at hf
        cases hf with
        | inl hf => exact ihfields f hf
        | inr hf =>
          right
          rw [hf]
          exact ihdraft
    | edit id v =>
      simp only [step] at hst
      cases hu : updateField id .value v s.fields with
      | none => rw [hu] at hst; cases hst
      | some fs =>
        rw [hu] at hst
        cases hst
        exact ⟨ihdraft, types_of_map_eq (updateField_frame hu).2 ihfields⟩
    | rename id resp =>
      cases resp with
      | none =>
        simp only [step] at hst
        cases hst
        exact ⟨ihdraft, ihfields⟩
      | some newLabel =>
        simp only [step] at hst
        split_ifs at hst with hne
        · cases hst
          exact ⟨ihdraft, ihfields⟩
        · cases hu : updateField id .label newLabel s.fields with
          | none => rw [hu] at hst; cases hst
          | some fs =>
            rw [hu] at hst
            cases hst
            exact ⟨ihdraft, types_of_map_eq (updateField_frame hu).2 ihfields⟩
    | changeType id t =>
      simp only [step] at hst
      cases hst
      simp only [evtOk, Bool.or_eq_true, decide_eq_true_eq] at hok
      refine ⟨ihdraft, ?_⟩
      intro f hf
      unfold updateType at hf
      obtain ⟨g, hg, hgf⟩ := List.mem_map.mp hf
      by_cases hid : g.id = id
      · rw [if_pos hid] at hgf
        rw [← hgf]
        exact hok
      · rw [if_neg hid] at hgf
        rw [← hgf]
        exact ihfields g hg
    | remove id =>
      simp only [step] at hst
      cases hst
      refine ⟨ihdraft, ?_⟩
      intro f hf
      exact ihfields f (mem_removeField.mp hf).1
    | save =>
      simp only [step] at hst
      cases hs : saveForm s.fields with
      | none => rw [hs] at hst; cases hst
      | some p =>
        obtain ⟨fs, b⟩ := p
        rw [hs] at hst
        cases hst
        exact ⟨ihdraft, types_of_map_eq (saveForm_sound hs).2.2.2.2 ihfields⟩

/-- A reachable state whose only record carries the unregistered type tag
`""`, reached by adding a text field and then selecting the empty
`"Выберите"` option in its type selector. -/
def c3Bad : AppState :=
  { fields := [{ id := 1, label := "Имя", type := "", value := "",
                 error := none }],
    newFieldLabel := "", newFieldType := "text", message := "" }

/-- Counterexample to claim C3 as stated: `c3Bad` is reachable, its
record's tag `""` is not registered, and both a value edit and a save on
that record hit an undefined registry lookup (a `TypeError` at run time,
modelled as `none`). -/
theorem claim_C3_counterexample :
    Reach c3Bad ∧
    c3Bad.fields.map (fun f => f.type) = [""] ∧
    ¬ ("" ∈ registeredTags) ∧
    updateField 1 UpdKey.value "7" c3Bad.fields = none ∧
    saveForm c3Bad.fields = none := by
  refine ⟨?_, by decide, by decide, by decide, by decide⟩
  have h1 : Reach { fields := [], newFieldLabel := "Имя", newFieldType := "text",
                    message := "" } :=
    @Reach.next initState (Event.setDraftLabel "Имя") _ Reach.init
      (by decide) (by decide)
  have h2 : Reach { fields := [{ id := 1, label := "Имя", type := "text",
                                 value := "", error := none }],
                    newFieldLabel := "", newFieldType := "text",
                    message := "" } :=
    @Reach.next _ (Event.add 1) _ h1 (by decide) (by decide)
  exact @Reach.next _ (Event.changeType 1 "") _ h2 (by decide) (by decide)

/-- Witness for C3 (amended): the invariant holds at the initial state. -/
theorem claim_C3_witness :
    initState.newFieldType ∈ registeredTags ∧
    ∀ f ∈ initState.fields, f.type = "" ∨ f.type ∈ registeredTags :=
  claim_C3 initState Reach.init

/-! ### Claim C10: record identities -/

/-- Claim C10 (amended): no handler changes an existing record's id —
every step leaves the id list a sublist of the previous one (equal except
for removals), or, for a successful add, appends the generated id at the
end; consequently id uniqueness is preserved by any step whose generated
id is fresh.  Unconditional uniqueness fails because ids come from
`Date.now()`, which can repeat. -/
theorem claim_C10 (s : AppState) (e : Event) (s' : AppState)
    (hok : evtOk s e = true) (hst : step s e = some s') :
    ((s'.fields.map fun f => f.id).Sublist (s.fields.map fun f => f.id) ∨
      ∃ now, e = Event.add now ∧
        s'.fields.map (fun f => f.id) = (s.fields.map fun f => f.id) ++ [now]) ∧
    ((s.fields.map fun f => f.id).Pairwise (fun a b => a ≠ b) →
      (∀ now, e = Event.add now → now ∉ s.fields.map fun f => f.id) →
      (s'.fields.map fun f => f.id).Pairwise (fun a b => a ≠ b)) := by
  have hmain : (s'.fields.map fun f => f.id).Sublist (s.fields.map fun f => f.id) ∨
      ∃ now, e = Event.add now ∧
        s'.fields.map (fun f => f.id) = (s.fields.map fun f => f.id) ++ [now] := by
    cases e with
    | setDraftLabel v =>
      simp only [step] at hst
      cases hst
      exact Or.inl (List.Sublist.refl _)
    | setDraftType t =>
      simp only [step] at hst
      cases hst
      exact Or.inl (List.Sublist.refl _)
    | add now =>
      simp only [step] at hst
      cases hst
      unfold addField
      split_ifs with hemp
      · exact Or.inl (List.Sublist.refl _)
      · exact Or.inr ⟨now, rfl, by simp⟩
    | edit id v =>
      simp only [step] at hst
      cases hu : updateField id .value v s.fields with
      | none => rw [hu] at hst; cases hst
      | some fs =>
        rw [hu] at hst
        cases hst
        refine Or.inl ?_
        rw [(updateField_frame hu).1]
    | rename id resp =>
      cases resp with
      | none =>
        simp only [step] at hst
        cases hst
        exact Or.inl (List.Sublist.refl _)
      | some newLabel =>
        simp only [step] at hst
        split_ifs at hst with hne
        · cases hst
          exact Or.inl (List.Sublist.refl _)
        · cases hu : updateField id .label newLabel s.fields with
          | none => rw [hu] at hst; cases hst
          | some fs =>
            rw [hu] at hst
            cases hst
            refine Or.inl ?_
            rw [(updateField_frame hu).1]
    | changeType id t =>
      simp only [step] at hst
      cases hst
      refine Or.inl ?_
      rw [updateType_ids]
    | remove id =>
      simp only [step] at hst
      cases hst
      exact Or.inl (List.Sublist.map _ (List.filter_sublist _))
    | save =>
      simp only [step] at hst
      cases hs : saveForm s.fields with
      | none => rw [hs] at hst; cases hst
      | some p =>
        obtain ⟨fs, b⟩ := p
        rw [hs] at hst
        cases hst
        refine Or.inl ?_
        rw [(saveForm_sound hs).2.2.2.1]
  refine ⟨hmain, ?_⟩
  intro hpw hfresh
  cases hmain with
  | inl hsub => exact List.Pairwise.sublist hsub hpw
  | inr hadd =>
    obtain ⟨now, he, hids⟩ := hadd
    rw [hids, List.pairwise_append]
    refine ⟨hpw, List.pairwise_singleton _ _, ?_⟩
    intro a ha bb hbb
    simp only [List.mem_singleton] at hbb
    rw [hbb]
    exact fun heq => hfresh now he (heq ▸ ha)

/-- A reachable state holding two records with the same id `100`: both
adds sampled the same `Date.now()` millisecond. -/
def c10Dup : AppState :=
  { fields := [{ id := 100, label := "Имя", type := "text", value := "",
                 error := none },
               { id := 100, label := "Год", type := "text", value := "",
                 error := none }],
    newFieldLabel := "", newFieldType := "text", message := "" }

/-- Counterexample to claim C10 as stated: two adds in the same
millisecond (both `Date.now()` samples equal to 100) reach a state whose
two records share the id 100, so ids are not unique in every reachable
state. -/
theorem claim_C10_counterexample :
    Reach c10Dup ∧
    c10Dup.fields.map (fun f => f.id) = [100, 100] ∧
    ¬ (c10Dup.fields.map fun f => f.id).Pairwise (fun a b => a ≠ b) := by
  refine ⟨?_, by decide, ?_⟩
  · have h1 : Reach { fields := [], newFieldLabel := "Имя",
                      newFieldType := "text", message := "" } :=
      @Reach.next initState (Event.setDraftLabel "Имя") _ Reach.init
        (by decide) (by decide)
    have h2 : Reach { fields := [{ id := 100, label := "Имя", type := "text",
                                   value := "", error := none }],
                      newFieldLabel := "", newFieldType := "text",
                      message := "" } :=
      @Reach.next _ (Event.add 100) _ h1 (by decide) (by decide)
    have h3 : Reach { fields := [{ id := 100, label := "Имя", type := "text",
                                   value := "", error := none }],
                      newFieldLabel := "Год", newFieldType := "text",
                      message := "" } :=
      @Reach.next _ (Event.setDraftLabel "Год") _ h2 (by decide) (by decide)
    exact @Reach.next _ (Event.add 100) _ h3 (by decide) (by decide)
  · intro hpw
    have hcons := List.pairwise_cons.mp hpw
    exact hcons.1 100 (by simp) rfl

/-- Witness for C10 (amended): adding a record with the fresh id 5 to a
state whose single record has id 1 keeps the ids pairwise distinct. -/
theorem claim_C10_witness :
    (([{ id := 1, label := "А", type := "text", value := "", error := none },
       { id := 5, label := "Б", type := "text", value := "", error := none }] :
        List Field).map (fun f => f.id)).Pairwise (fun a b => a ≠ b) := by
  have h := claim_C10
    { fields := [{ id := 1, label := "А", type := "text", value := "",
                   error := none }],
      newFieldLabel := "Б", newFieldType := "text", message := "" }
    (Event.add 5)
    { fields := [{ id := 1, label := "А", type := "text", value := "",
                   error := none },
                 { id := 5, label := "Б", type := "text", value := "",
                   error := none }],
      newFieldLabel := "", newFieldType := "text", message := "" }
    (by decide) (by decide)
  refine h.2 ?_ ?_
  · exact List.pairwise_singleton _ _
  · intro now he
    injection he with hn
    subst hn
    decide

end FormBuilder
